import Mathlib

/-!
Shallow embedding of the core of the obsidian-frontmatter-suggester plugin:
field-path resolution (frontmatter parser), rule matching and suggestion
generation, the multi-select selection state machine, option-level and
rule-level value validation, and the per-document validation driver.

Definitions are translated from the TypeScript source.  JavaScript string
primitives (trim, startsWith, split, join, toLowerCase) are modelled in the
`Js` namespace over character lists.  Editor documents are modelled as
`List String` (one entry per line, no newline characters, as returned by
the editor's getLine), and cursor positions as an `EditorPosition` record.
-/

set_option autoImplicit false

namespace Js

/-- Whitespace test used by the JS regex class \s and by String.trim
(restricted to the ASCII whitespace occurring in frontmatter lines). -/
def isWs (c : Char) : Bool := c.isWhitespace

/-- Model of String.prototype.trim over a character list. -/
def trimChars (cs : List Char) : List Char :=
  ((cs.dropWhile isWs).reverse.dropWhile isWs).reverse

/-- Model of String.prototype.trim. -/
def trim (s : String) : String := String.mk (trimChars s.data)

/-- Model of String.prototype.startsWith. -/
def startsWith (s pre : String) : Bool := pre.data.isPrefixOf s.data

/-- Character membership, modelling indexOf(c) !== -1. -/
def containsChar (s : String) (c : Char) : Bool := s.data.contains c

/-- Model of String.prototype.toLowerCase (ASCII range; the validated
keywords true/false/yes/no are ASCII). -/
def toLower (s : String) : String := String.mk (s.data.map Char.toLower)

/-- Model of Array.prototype.join with a separator string. -/
def joinWith (sep : String) : List String → String
  | [] => ""
  | x :: xs => xs.foldl (fun a s => a ++ sep ++ s) x

/-- Model of Array.prototype.join with the empty separator: plain
concatenation of all elements. -/
def joinAll (l : List String) : String := String.mk (l.map String.data).flatten

/-- Truthiness of an optional string (undefined and the empty string are
falsy in JS). -/
def optTruthy : Option String → Bool
  | some s => !(s == "")
  | none => false

/-- JS a || b for two strings (the empty string is falsy). -/
def orElseStr (a b : String) : String := if a == "" then b else a

/-- JS a || b where a is an optional string. -/
def orElseOptStr (a : Option String) (b : String) : String :=
  match a with
  | some s => if s == "" then b else s
  | none => b

/-- Model of String.prototype.split with separator "." on a character
list; JS split of the empty string yields one empty segment. -/
def splitDotChars : List Char → List (List Char)
  | [] => [[]]
  | c :: rest =>
    let r := splitDotChars rest
    if c == '.' then [] :: r
    else
      match r with
      | h :: t => (c :: h) :: t
      | [] => [[c]]

/-- Model of String.prototype.split with separator ".". -/
def splitDot (s : String) : List String := (splitDotChars s.data).map String.mk

end Js

/-- Cursor position in the editor: zero-based line and column. -/
structure EditorPosition where
  line : Nat
  ch : Nat
deriving DecidableEq, Repr

/-- Rule source types, from types.ts as used by the suggester's
source-type dispatch (inline, vault-tags, vault-files, date,
recent-values). -/
inductive SourceType where
  | inline
  | vaultTags
  | vaultFiles
  | date
  | recentValues
deriving DecidableEq, Repr

/-- Option-level type tags (number, boolean, enum). -/
inductive OptType where
  | number
  | boolean
  | enum
deriving DecidableEq, Repr

/-- Rule-level value-config type tags; noneType models the source string
tag none. -/
inductive ValueType where
  | number
  | text
  | noneType
deriving DecidableEq, Repr

/-- Validation sub-object of the legacy rule-level value configuration. -/
structure ValidationRules where
  required : Bool := false
  allowDecimal : Option Bool := none
  min : Option Rat := none
  max : Option Rat := none
  minLength : Option Nat := none
  maxLength : Option Nat := none
  pattern : Option String := none
  customErrorMessage : Option String := none
deriving DecidableEq, Repr

/-- One configured unit in the legacy value configuration. -/
structure UnitConfig where
  unit : String
deriving DecidableEq, Repr

/-- Legacy rule-level value configuration (validator.ts). -/
structure ValueConfig where
  type : ValueType := .noneType
  units : List UnitConfig := []
  defaultUnit : Option String := none
  unitBehavior : Option String := none
  validation : Option ValidationRules := none
deriving DecidableEq, Repr

/-- Display flags for a rule; absent flags mean show. -/
structure DisplayFormat where
  showIcon : Option Bool := none
  showDescription : Option Bool := none
deriving DecidableEq, Repr

/-- One candidate child key of a rule, with an optional type declaration.
Undefined unit and enum lists are modelled as empty lists (the source only
tests emptiness). -/
structure OptionItem where
  key : String
  description : Option String := none
  icon : Option String := none
  type : Option OptType := none
  units : List String := []
  enumValues : List String := []
deriving DecidableEq, Repr

/-- A configured suggestion rule (fields as used by the suggester and the
validation driver). -/
structure FieldRule where
  id : String := ""
  fieldPath : String
  parentField : String := ""
  enabled : Bool := true
  sourceType : SourceType := .inline
  options : List OptionItem := []
  valueConfig : Option ValueConfig := none
  displayFormat : Option DisplayFormat := none
  multiSelect : Bool := false
deriving DecidableEq, Repr

/-- One suggestion handed to the UI layer. -/
structure SuggestionItem where
  rule : FieldRule
  option : OptionItem
  displayText : String
  insertText : String
deriving DecidableEq, Repr

/-- Generic YAML value tree, the result of a successful js-yaml load. -/
inductive Yaml where
  | nullv
  | bool (b : Bool)
  | num (q : Rat)
  | str (s : String)
  | arr (xs : List Yaml)
  | map (kvs : List (String × Yaml))

/-- Frontmatter block boundaries: the lines holding the opening and
closing delimiter (stop is the source field end). -/
structure FrontmatterBounds where
  start : Nat
  stop : Nat
deriving DecidableEq, Repr

/-- Resolver output: dotted path, cursor line, indentation of that line,
and the (best-effort) value found at the path; none models undefined. -/
structure FieldPathContext where
  path : String
  line : Nat
  indent : Nat
  value : Option Yaml

/-- Validation verdict: valid, or invalid with a short error label and an
optional synthesized suggestion. -/
structure ValidationResult where
  valid : Bool
  error : Option String := none
  suggestion : Option String := none
deriving DecidableEq, Repr

namespace FrontmatterParser

/-- Indent level of a line: length of the leading whitespace run
(frontmatter-parser getIndent). -/
def getIndent (line : String) : Nat := (line.data.takeWhile Js.isWs).length

/-- Extract the field name of a line, modelling the anchored regex
matching optional leading whitespace, then a group of non-whitespace
non-colon tokens separated by whitespace runs, immediately followed by a
colon and the rest of the line.  The match succeeds exactly when the line
contains a colon and the text before the first colon, after stripping
leading whitespace, is nonempty and does not end in whitespace; the field
name is that stripped text (frontmatter-parser extractFieldName). -/
def extractFieldName (line : String) : Option String :=
  if line.data.contains ':' then
    let pre := line.data.takeWhile (fun c => !(c == ':'))
    let q := pre.dropWhile Js.isWs
    match q.getLast? with
    | none => none
    | some c => if Js.isWs c then none else some (String.mk q)
  else none

/-- Index of the first line whose trimmed text is the delimiter marker,
scanning a list of lines from the front. -/
def findDelimiterIdx : List String → Option Nat
  | [] => none
  | l :: rest =>
    if Js.trim l == "---" then some 0
    else (findDelimiterIdx rest).map (· + 1)

/-- Frontmatter block boundaries: line 0 must trim to the marker, and the
end is the next line that also trims to the marker
(frontmatter-parser getFrontmatterBounds). -/
def getFrontmatterBounds (lines : List String) : Option FrontmatterBounds :=
  match lines with
  | [] => none
  | l0 :: rest =>
    if Js.trim l0 == "---" then
      (findDelimiterIdx rest).map (fun j => ⟨0, j + 1⟩)
    else none

/-- Cursor is inside the block iff its line lies strictly between the two
delimiter lines (frontmatter-parser isInFrontmatter). -/
def isInFrontmatter (cursor : EditorPosition) (lines : List String) : Bool :=
  match getFrontmatterBounds lines with
  | none => false
  | some b => decide (b.start < cursor.line) && decide (cursor.line < b.stop)

/-- Upward walk shared by both path strategies.  From searchLine the walk
steps down one line at a time while searchLine is above stop; a non-blank
line carrying a field token at exactly the expected ancestor indentation
is prepended to the path and the expectation steps to its indentation
minus 2.  The expected indentation is an integer because the first
expectation can be negative (current indent minus 2).  The two source
methods duplicate this loop verbatim and differ only in the stop line
they pass. -/
def walkUp (lines : List String) (stop : Nat) : Nat → Int → List String → List String
  | 0, _, path => path
  | sl + 1, expected, path =>
    if stop < sl + 1 then
      let line := lines.getD sl ""
      if Js.trim line == "" then walkUp lines stop sl expected path
      else
        let ind := getIndent line
        match extractFieldName line with
        | some f =>
          if (ind : Int) = expected then
            walkUp lines stop sl ((ind : Int) - 2) (f :: path)
          else walkUp lines stop sl expected path
        | none => walkUp lines stop sl expected path
    else path

/-- Key lookup in a YAML mapping. -/
def yamlLookup (kvs : List (String × Yaml)) (f : String) : Option Yaml :=
  (kvs.find? (fun kv => kv.1 == f)).map (·.2)

/-- Descend a YAML value key by key; a missing key or a non-container
intermediate yields none (undefined).  JS numeric-string indexing of
sequences is not modelled (no descent into arr nodes); none of the
theorems below inspect resolved values. -/
def descendYaml : Option Yaml → List String → Option Yaml
  | cur, [] => cur
  | some (Yaml.map kvs), f :: rest => descendYaml (yamlLookup kvs f) rest
  | _, _ :: _ => none

/-- Value lookup along a path (frontmatter-parser getValueFromYAML). -/
def getValueFromYAML (y : Yaml) (pathArray : List String) : Option Yaml :=
  descendYaml (some y) pathArray

/-- Initial path and expected ancestor indentation for the walk: a field
token on the cursor line becomes the last segment with the next ancestor
expected at indent - 2; otherwise the nearest enclosing key is expected
at the current indent itself. -/
def walkInit (currentLine : String) (currentIndent : Nat) : List String × Int :=
  match extractFieldName currentLine with
  | some f => ([f], (currentIndent : Int) - 2)
  | none => ([], (currentIndent : Int))

/-- Shared tail of both strategies: fail on an empty walked path,
otherwise assemble the context record. -/
def assembleContext (path : List String) (lineNo indent : Nat)
    (value : Option Yaml) : Option FieldPathContext :=
  if path.isEmpty then none
  else some ⟨Js.joinWith "." path, lineNo, indent, value⟩

/-- Structured strategy (frontmatter-parser getFieldPathFromYAML): the
indentation walk bounded below by the first interior line of the block,
with the value resolved from the parse tree. -/
def getFieldPathFromYAML (yamlObj : Yaml) (cursor : EditorPosition)
    (frontmatterStart : Nat) (lines : List String) : Option FieldPathContext :=
  let currentLine := lines.getD cursor.line ""
  let currentIndent := getIndent currentLine
  let init := walkInit currentLine currentIndent
  let path := walkUp lines frontmatterStart cursor.line init.2 init.1
  assembleContext path cursor.line currentIndent (getValueFromYAML yamlObj path)

/-- Heuristic strategy (frontmatter-parser getCurrentFieldPathHeuristic):
the same walk bounded below by the opening delimiter line, with the value
resolved from the parse tree only when one is available. -/
def getCurrentFieldPathHeuristic (cursor : EditorPosition) (lines : List String)
    (bounds : FrontmatterBounds) (yamlObj : Option Yaml) : Option FieldPathContext :=
  let currentLine := lines.getD cursor.line ""
  let currentIndent := getIndent currentLine
  let init := walkInit currentLine currentIndent
  let path := walkUp lines bounds.start cursor.line init.2 init.1
  let value := match yamlObj with
    | some y => getValueFromYAML y path
    | none => none
  assembleContext path cursor.line currentIndent value

/-- Full resolver (frontmatter-parser getCurrentFieldPath).  The parsed
argument models the outcome of the js-yaml load of the block interior:
some tree on success (a null document loads as some Yaml.nullv), none
when the load threw.  On load success the structured strategy is tried
first and the heuristic is the fallback; parse failures never propagate. -/
def getCurrentFieldPath (parsed : Option Yaml) (cursor : EditorPosition)
    (lines : List String) : Option FieldPathContext :=
  match getFrontmatterBounds lines with
  | none => none
  | some bounds =>
    if isInFrontmatter cursor lines then
      match parsed with
      | some y =>
        match getFieldPathFromYAML y cursor (bounds.start + 1) lines with
        | some result => some result
        | none => getCurrentFieldPathHeuristic cursor lines bounds parsed
      | none => getCurrentFieldPathHeuristic cursor lines bounds parsed
    else none

/-- Keys found in the YAML tree at a dotted field path; non-mapping
values and missing keys give the empty list
(frontmatter-parser getExistingSubItemsFromYAMLByPath). -/
def getExistingSubItemsFromYAMLByPath (yamlObj : Yaml) (fieldPath : String) : List String :=
  if fieldPath == "" then []
  else
    match descendYaml (some yamlObj) (Js.splitDot fieldPath) with
    | some (Yaml.map kvs) => kvs.map (·.1)
    | _ => []

/-- Scan for a nested field name at the expected indent, stopping at a
non-blank line of lower indent; fuel counts the remaining lines before
the closing delimiter (inner loop of findFieldLineInEditor). -/
def scanNested (lines : List String) (name : String) (expectedIndent : Nat) :
    Nat → Nat → Option Nat
  | _, 0 => none
  | j, fuel + 1 =>
    let line := lines.getD j ""
    if getIndent line < expectedIndent ∧ ¬(Js.trim line == "") then none
    else if extractFieldName line = some name ∧ getIndent line = expectedIndent then some j
    else scanNested lines name expectedIndent (j + 1) fuel

/-- Locate the line of a dotted field path: the first segment at indent 0
inside the block, then each nested segment at indent 2 per level
(frontmatter-parser findFieldLineInEditor). -/
def findFieldLineInEditor (fieldPath : String) (lines : List String)
    (bounds : FrontmatterBounds) : Option Nat :=
  match Js.splitDot fieldPath with
  | [] => none
  | first :: rest =>
    match (List.range' (bounds.start + 1) (bounds.stop - bounds.start - 1)).find?
        (fun i => extractFieldName (lines.getD i "") == some first
          && getIndent (lines.getD i "") == 0) with
    | none => none
    | some cur => goNested lines bounds rest cur 1
where
  goNested (lines : List String) (bounds : FrontmatterBounds) :
      List String → Nat → Nat → Option Nat
    | [], cur, _ => some cur
    | nm :: rest, cur, k =>
      match scanNested lines nm (k * 2) (cur + 1) (bounds.stop - (cur + 1)) with
      | none => none
      | some j => goNested lines bounds rest j (k + 1)

/-- Collect sub-item names one indent level below a field line, stopping
at a non-blank line at or below the field's indent; fuel counts the
remaining lines up to and including the closing delimiter
(frontmatter-parser getExistingSubItemsHeuristic). -/
def collectSubItems (lines : List String) (fieldIndent expectedSubIndent : Nat) :
    Nat → Nat → List String
  | _, 0 => []
  | j, fuel + 1 =>
    let line := lines.getD j ""
    if getIndent line ≤ fieldIndent ∧ ¬(Js.trim line == "") then []
    else
      let rest := collectSubItems lines fieldIndent expectedSubIndent (j + 1) fuel
      if getIndent line = expectedSubIndent then
        match extractFieldName line with
        | some nm => nm :: rest
        | none => rest
      else rest

/-- Heuristic sub-item detection below a field line. -/
def getExistingSubItemsHeuristic (fieldLine : Nat) (lines : List String)
    (bounds : FrontmatterBounds) : List String :=
  let fieldLineText := lines.getD fieldLine ""
  let fieldIndent := getIndent fieldLineText
  collectSubItems lines fieldIndent (fieldIndent + 2) (fieldLine + 1) (bounds.stop - fieldLine)

/-- Existing sub-items under a dotted field path
(frontmatter-parser getExistingSubItemsByPath): the YAML tree's keys when
the load succeeded (even when empty), otherwise the heuristic
line scan. -/
def getExistingSubItemsByPath (parsed : Option Yaml) (fieldPath : String)
    (lines : List String) : List String :=
  match getFrontmatterBounds lines with
  | none => []
  | some bounds =>
    match parsed with
    | some y => getExistingSubItemsFromYAMLByPath y fieldPath
    | none =>
      match findFieldLineInEditor fieldPath lines bounds with
      | none => []
      | some fieldLine => getExistingSubItemsHeuristic fieldLine lines bounds

end FrontmatterParser

namespace FrontmatterSuggester

/-- Depth of a dotted field path: count of non-empty dot-separated
segments (suggester calculatePathDepth). -/
def calculatePathDepth (fieldPath : String) : Nat :=
  ((Js.splitDot fieldPath).filter (fun p => p.length > 0)).length

/-- Declared path of a rule as the suggester reads it: fieldPath, falling
back to the legacy parentField when fieldPath is empty
(rule.fieldPath || rule.parentField). -/
def ruleFieldPathOf (rule : FieldRule) : String :=
  Js.orElseStr rule.fieldPath rule.parentField

/-- Two-pass rule matching (suggester findMatchingRule, duplicated
verbatim in the validation driver): one scan in configured order for an
exact path match, then, only if that fails, a second scan in configured
order for a rule whose declared path followed by a dot is a prefix of the
path. -/
def findMatchingRule (rules : List FieldRule) (fieldPath : String) : Option FieldRule :=
  match rules.find? (fun rule => rule.fieldPath == fieldPath) with
  | some rule => some rule
  | none => rules.find? (fun rule => Js.startsWith fieldPath (rule.fieldPath ++ "."))

/-- Display text of an option: key, then an optional description suffix,
then an optional icon prefix, each suppressible by the rule's display
flags (suggester buildDisplayText). -/
def buildDisplayText (option : OptionItem) (rule : FieldRule) : String :=
  let text := option.key
  let text :=
    if Js.optTruthy option.description
        ∧ ¬((rule.displayFormat.bind (·.showDescription)) = some false) then
      text ++ " - " ++ (option.description.getD "")
    else text
  if Js.optTruthy option.icon
      ∧ ¬((rule.displayFormat.bind (·.showIcon)) = some false) then
    (option.icon.getD "") ++ " " ++ text
  else text

/-- Insertion text of an option (suggester buildInsertText). -/
def buildInsertText (option : OptionItem) : String := option.key ++ ": "

/-- Inline-source suggestion synthesis (suggester
generateParentFieldSuggestions): iterate the rule's options in declared
order, skip keys already present, and pair each survivor with its display
and insertion text.  Non-inline source types are unimplemented and yield
the empty list. -/
def generateParentFieldSuggestions (rule : FieldRule) (parsed : Option Yaml)
    (lines : List String) : List SuggestionItem :=
  let existingItems :=
    FrontmatterParser.getExistingSubItemsByPath parsed (ruleFieldPathOf rule) lines
  match rule.sourceType with
  | .inline =>
    rule.options.filterMap (fun option =>
      if existingItems.contains option.key then none
      else some ⟨rule, option, buildDisplayText option rule, buildInsertText option⟩)
  | _ => []

/-- Suggestion generation (suggester generateSuggestions): resolve the
cursor's field path, then produce suggestions only when the resolved
path's depth equals the depth of the rule's declared path. -/
def generateSuggestions (rule : FieldRule) (parsed : Option Yaml)
    (cursor : EditorPosition) (lines : List String) : List SuggestionItem :=
  match FrontmatterParser.getCurrentFieldPath parsed cursor lines with
  | none => []
  | some fieldContext =>
    let ruleDepth := calculatePathDepth (ruleFieldPathOf rule)
    let pathDepth := calculatePathDepth fieldContext.path
    if pathDepth = ruleDepth then generateParentFieldSuggestions rule parsed lines
    else []

/-- Multi-select toggle performed by selectSuggestion on the ordered
selected-set (a JS Set keeps insertion order; delete removes the key and
a later add re-appends it at the end). -/
def toggleSelection (selectedItems : List String) (key : String) : List String :=
  if selectedItems.contains key then selectedItems.erase key
  else selectedItems ++ [key]

/-- One text mutation handed to the editor: the text, the replacement
range (toPos none models a pure insertion at fromPos), and the cursor
position set afterwards. -/
structure InsertOp where
  text : String
  fromPos : EditorPosition
  toPos : Option EditorPosition
  cursorAfter : EditorPosition
deriving DecidableEq, Repr

/-- Multi-select flush (suggester handleMultiSelection).  On a line
carrying a field token the block of per-key runs is appended at the end
of the line and the cursor lands after the last inserted key's colon and
space; on a placeholder line the first key occupies the current line and
the span from the cursor to the end of the line is replaced.
selectedArray is nonempty at every call site (guarded by close); the
empty-list default for its last element stands in for the out-of-bounds
access JS would make. -/
def handleMultiSelection (selectedArray : List String) (cursor : EditorPosition)
    (lines : List String) (fieldContextIndent : Nat) : InsertOp :=
  let currentLine := lines.getD cursor.line ""
  match FrontmatterParser.extractFieldName currentLine with
  | some _ =>
    let itemIndent := fieldContextIndent + 2
    let indentStr := String.mk (List.replicate itemIndent ' ')
    let insertLines := Js.joinAll (selectedArray.map (fun key => "\n" ++ indentStr ++ key ++ ": "))
    { text := insertLines
      fromPos := ⟨cursor.line, currentLine.length⟩
      toPos := none
      cursorAfter := ⟨cursor.line + selectedArray.length,
        itemIndent + (selectedArray.getLastD "").length + 2⟩ }
  | none =>
    let itemIndent := if cursor.line > 0 then FrontmatterParser.getIndent currentLine
      else fieldContextIndent + 2
    let indentStr := String.mk (List.replicate itemIndent ' ')
    let insertLines := Js.joinAll (selectedArray.enum.map (fun p =>
      if p.1 = 0 then indentStr ++ p.2 ++ ": "
      else "\n" ++ indentStr ++ p.2 ++ ": "))
    { text := insertLines
      fromPos := cursor
      toPos := some ⟨cursor.line, currentLine.length⟩
      cursorAfter := ⟨cursor.line + selectedArray.length - 1,
        itemIndent + (selectedArray.getLastD "").length + 2⟩ }

/-- Single-select insertion (suggester handleParentFieldSelection): one
key inserted after the parent line, or placed on the placeholder line
from the cursor to the end of the line. -/
def handleParentFieldSelection (key : String) (cursor : EditorPosition)
    (lines : List String) (fieldContextIndent : Nat) : InsertOp :=
  let currentLine := lines.getD cursor.line ""
  match FrontmatterParser.extractFieldName currentLine with
  | some _ =>
    let itemIndent := fieldContextIndent + 2
    let indentStr := String.mk (List.replicate itemIndent ' ')
    let newLineText := "\n" ++ indentStr ++ key ++ ": "
    { text := newLineText
      fromPos := ⟨cursor.line, currentLine.length⟩
      toPos := none
      cursorAfter := ⟨cursor.line + 1, itemIndent + key.length + 2⟩ }
  | none =>
    let itemIndent := if cursor.line > 0 then FrontmatterParser.getIndent currentLine
      else fieldContextIndent + 2
    let indentStr := String.mk (List.replicate itemIndent ' ')
    let insertText := indentStr ++ key ++ ": "
    { text := insertText
      fromPos := cursor
      toPos := some ⟨cursor.line, currentLine.length⟩
      cursorAfter := ⟨cursor.line, cursor.ch + insertText.length⟩ }

end FrontmatterSuggester

/-- Outcome of the shared number-with-unit parse: the numeric value and
the optional trailing unit. -/
structure ParsedNumber where
  numValue : Rat
  unit : Option String
deriving DecidableEq, Repr

/-- Numeric value of a digit run. -/
def digitsToNat (ds : List Char) : Nat :=
  ds.foldl (fun a c => a * 10 + (c.toNat - 48)) 0

/-- Parse a leading signed decimal numeral with an optional trailing unit,
modelling the anchored regex capturing an optional sign, one or more
digits, an optional dot with further digits, then optional whitespace and
the rest of the line; the unit is the trimmed rest, with the empty rest
standing for no unit.  Both validators carry a verbatim copy of this
function (option-validator and validator parseNumberWithUnit).  The
numeral is modelled as an exact rational rather than a double; no claim
depends on float rounding. -/
def parseNumberWithUnit (value : String) : Option ParsedNumber :=
  let cs := value.data
  let (sign, cs1) : Rat × List Char :=
    match cs with
    | '-' :: t => (-1, t)
    | '+' :: t => (1, t)
    | _ => (1, cs)
  let ds := cs1.takeWhile Char.isDigit
  let cs2 := cs1.dropWhile Char.isDigit
  if ds.isEmpty then none
  else
    let (fracDs, rest) : List Char × List Char :=
      match cs2 with
      | '.' :: t => (t.takeWhile Char.isDigit, t.dropWhile Char.isDigit)
      | _ => ([], cs2)
    let unitPart := Js.trim (String.mk rest)
    let numValue : Rat :=
      sign * ((digitsToNat ds : Rat) + (digitsToNat fracDs : Rat) / (10 : Rat) ^ fracDs.length)
    some ⟨numValue, if unitPart == "" then none else some unitPart⟩

namespace OptionValidator

/-- Format suggestion for option-level numbers
(option-validator getNumberSuggestion). -/
def getNumberSuggestion (units : List String) : String :=
  if ¬(units = []) then
    let exampleUnit := units.headD ""
    "Examples: 10" ++ exampleUnit ++ ", 10 " ++ exampleUnit
  else "Examples: 10, 10.5"

/-- Option-level number validation (option-validator validateNumber):
a declared unit list demands a matching unit; an empty list forbids one. -/
def validateNumber (value : String) (units : List String) : ValidationResult :=
  match parseNumberWithUnit value with
  | none => ⟨false, some "Invalid number format", some (getNumberSuggestion units)⟩
  | some parseResult =>
    if ¬(units = []) then
      match parseResult.unit with
      | none => ⟨false, some "Unit required", some ("Valid units: " ++ Js.joinWith ", " units)⟩
      | some unit =>
        if units.contains unit then ⟨true, none, none⟩
        else ⟨false, some ("Invalid unit \"" ++ unit ++ "\""),
          some ("Valid units: " ++ Js.joinWith ", " units)⟩
    else
      match parseResult.unit with
      | some _ => ⟨false, some "No unit expected", some "Enter plain number"⟩
      | none => ⟨true, none, none⟩

/-- Option-level boolean validation (option-validator validateBoolean). -/
def validateBoolean (value : String) : ValidationResult :=
  let lowerValue := Js.toLower value
  if ["true", "false", "yes", "no"].contains lowerValue then ⟨true, none, none⟩
  else ⟨false, some "Invalid boolean value", some "Valid: true, false, yes, no"⟩

/-- Option-level enum validation (option-validator validateEnum); an
empty declared list accepts everything. -/
def validateEnum (value : String) (enumValues : List String) : ValidationResult :=
  if enumValues = [] then ⟨true, none, none⟩
  else if enumValues.contains value then ⟨true, none, none⟩
  else ⟨false, some "Invalid value", some ("Valid: " ++ Js.joinWith ", " enumValues)⟩

/-- Option-level validation entry point (option-validator validate):
empty input and untyped options are always valid; otherwise dispatch on
the option's type tag over the trimmed value. -/
def validate (value : String) (option : OptionItem) : ValidationResult :=
  if Js.trim value == "" then ⟨true, none, none⟩
  else
    let trimmedValue := Js.trim value
    match option.type with
    | none => ⟨true, none, none⟩
    | some .number => validateNumber trimmedValue option.units
    | some .boolean => validateBoolean trimmedValue
    | some .enum => validateEnum trimmedValue option.enumValues

end OptionValidator

namespace ValueValidator

/-- Format suggestion for rule-level numbers
(validator getNumberFormatSuggestion). -/
def getNumberFormatSuggestion (config : ValueConfig) : String :=
  if ¬(config.units = []) then
    let exampleUnit := Js.orElseOptStr config.defaultUnit ((config.units.headD ⟨""⟩).unit)
    "Examples: 10" ++ exampleUnit ++ ", 10 " ++ exampleUnit
  else
    if (config.validation.bind (·.allowDecimal)) = some false then "Examples: 10"
    else "Examples: 10, 10.5"

/-- Rule-level number validation (validator validateNumber): decimal
permission, inclusive min/max range, and unit handling driven by the
configured unit list and unitBehavior. -/
def validateNumber (value : String) (config : ValueConfig) : ValidationResult :=
  match parseNumberWithUnit value with
  | none => ⟨false, some "Invalid number format", some (getNumberFormatSuggestion config)⟩
  | some parseResult =>
    let numValue := parseResult.numValue
    if (config.validation.bind (·.allowDecimal)) = some false ∧ ¬(numValue.den = 1) then
      ⟨false, some "Decimal numbers are not allowed", some "Please enter an integer value"⟩
    else
      match config.validation.bind (·.min) with
      | some minv =>
        if numValue < minv then
          ⟨false, some ("Value must be at least " ++ toString minv),
            some ("Enter a value >= " ++ toString minv)⟩
        else validateNumberMax value config numValue
      | none => validateNumberMax value config numValue
where
  /-- Max bound and unit checks, continuing validateNumber. -/
  validateNumberMax (value : String) (config : ValueConfig) (numValue : Rat) :
      ValidationResult :=
    match config.validation.bind (·.max) with
    | some maxv =>
      if maxv < numValue then
        ⟨false, some ("Value must be at most " ++ toString maxv),
          some ("Enter a value <= " ++ toString maxv)⟩
      else validateNumberUnit value config
    | none => validateNumberUnit value config
  /-- Unit checks, continuing validateNumber. -/
  validateNumberUnit (value : String) (config : ValueConfig) : ValidationResult :=
    match (parseNumberWithUnit value).bind (·.unit) with
    | some unit =>
      let validUnits := config.units.map (·.unit)
      if ¬(validUnits = []) ∧ ¬(validUnits.contains unit) then
        ⟨false, some ("Invalid unit \"" ++ unit ++ "\""),
          some ("Valid units: " ++ Js.joinWith ", " validUnits)⟩
      else ⟨true, none, none⟩
    | none =>
      if config.unitBehavior = some "required" ∧ ¬(config.units = []) then
        let validUnits := config.units.map (·.unit)
        ⟨false, some "Unit is required", some ("Add a unit: " ++ Js.joinWith ", " validUnits)⟩
      else ⟨true, none, none⟩

/-- Rule-level text validation (validator validateText), parameterised by
the external regex engine rx: rx pattern value is some of the test
outcome, or none when the configured pattern is malformed and the RegExp
constructor throws, in which case the check is skipped. -/
def validateText (rx : String → String → Option Bool) (value : String)
    (config : ValueConfig) : ValidationResult :=
  match config.validation.bind (·.minLength) with
  | some minLength =>
    if value.length < minLength then
      ⟨false, some ("Text must be at least " ++ toString minLength ++ " characters"),
        some ("Current length: " ++ toString value.length)⟩
    else validateTextMax rx value config
  | none => validateTextMax rx value config
where
  /-- Max-length and pattern checks, continuing validateText. -/
  validateTextMax (rx : String → String → Option Bool) (value : String)
      (config : ValueConfig) : ValidationResult :=
    match config.validation.bind (·.maxLength) with
    | some maxLength =>
      if maxLength < value.length then
        ⟨false, some ("Text must be at most " ++ toString maxLength ++ " characters"),
          some ("Current length: " ++ toString value.length)⟩
      else validateTextPattern rx value config
    | none => validateTextPattern rx value config
  /-- Pattern check, continuing validateText. -/
  validateTextPattern (rx : String → String → Option Bool) (value : String)
      (config : ValueConfig) : ValidationResult :=
    match config.validation.bind (·.pattern) with
    | some pattern =>
      match rx pattern value with
      | some false =>
        ⟨false, some (Js.orElseOptStr (config.validation.bind (·.customErrorMessage))
            "Value does not match required pattern"),
          some ("Pattern: " ++ pattern)⟩
      | _ => ⟨true, none, none⟩
    | none => ⟨true, none, none⟩

/-- Rule-level validation entry point (validator validate): empty input
is a required error exactly when the configuration marks the field
required, otherwise valid; nonempty input dispatches on the configured
type over the trimmed value. -/
def validate (rx : String → String → Option Bool) (value : String)
    (config : ValueConfig) : ValidationResult :=
  if Js.trim value == "" then
    if (config.validation.map (·.required)).getD false then
      ⟨false, some (Js.orElseOptStr (config.validation.bind (·.customErrorMessage))
        "Value is required"), none⟩
    else ⟨true, none, none⟩
  else
    let trimmedValue := Js.trim value
    match config.type with
    | .number => validateNumber trimmedValue config
    | .text => validateText rx trimmedValue config
    | .noneType => ⟨true, none, none⟩

end ValueValidator

namespace ValueValidatorExtension

/-- One recorded validation error: the absolute document offsets of the
value span, the verdict, and (recoverable in the source from the offsets
via offsetToPos) the line it was reported on. -/
structure ValidationError where
  line : Nat
  fromOfs : Nat
  toOfs : Nat
  result : ValidationResult
deriving DecidableEq, Repr

/-- Offset of a position in the document text obtained by joining the
lines with newlines (editor posToOffset). -/
def posToOffset (lines : List String) (pos : EditorPosition) : Nat :=
  ((lines.take pos.line).foldl (fun a l => a + l.length + 1) 0) + pos.ch

/-- First index at or after start where pat occurs in hay
(String.prototype.indexOf with a start index); the driver only calls it
for the trimmed value part, which always occurs after the colon, so the
JS not-found result -1 is modelled as 0 and never produced there. -/
def firstIndexOfFrom (hay pat : List Char) (start : Nat) : Nat :=
  match (List.range (hay.length + 1)).find?
      (fun i => decide (start ≤ i) && pat.isPrefixOf (hay.drop i)) with
  | some i => i
  | none => 0

/-- Text after the first colon of a line (substring(colonIndex + 1));
only used on lines that contain a colon. -/
def afterFirstColon (s : String) : String :=
  String.mk ((s.data.dropWhile (fun c => !(c == ':'))).drop 1)

/-- Text before the first colon of a line. -/
def beforeFirstColon (s : String) : String :=
  String.mk (s.data.takeWhile (fun c => !(c == ':')))

/-- Choice of validator for one line (the option/legacy dispatch inside
the loop body of validateAllFrontmatter): a typed option matching the
line's key gives option-level validation; otherwise the rule's legacy
value configuration, when present, gives rule-level validation; otherwise
no validation is configured. -/
def chooseResult (rx : String → String → Option Bool) (matchingRule : FieldRule)
    (keyPart valuePart : String) : Option ValidationResult :=
  match matchingRule.options.find? (fun opt => opt.key == keyPart) with
  | some opt =>
    if opt.type.isSome then some (OptionValidator.validate valuePart opt)
    else matchingRule.valueConfig.map (ValueValidator.validate rx valuePart)
  | none => matchingRule.valueConfig.map (ValueValidator.validate rx valuePart)

/-- Validation of one document line by the driver (loop body of
validateAllFrontmatter): skip lines outside the block, lines with no
resolvable path, lines governed by no enabled rule, lines without a
colon, and lines whose trimmed value part is empty; otherwise validate
with the matching typed option, falling back to the rule's legacy value
configuration, and record invalid results with the value span. -/
def processLine (rules : List FieldRule) (rx : String → String → Option Bool)
    (parsed : Option Yaml) (lines : List String) (line : Nat) : Option ValidationError :=
  let pos : EditorPosition := ⟨line, 0⟩
  if ¬(FrontmatterParser.isInFrontmatter pos lines) then none
  else
    match FrontmatterParser.getCurrentFieldPath parsed pos lines with
    | none => none
    | some fieldContext =>
      match FrontmatterSuggester.findMatchingRule rules fieldContext.path with
      | none => none
      | some matchingRule =>
        if ¬matchingRule.enabled then none
        else
          let currentLine := lines.getD line ""
          if ¬(currentLine.data.contains ':') then none
          else
            let colonIndex := (currentLine.data.takeWhile (fun c => !(c == ':'))).length
            let keyPart := Js.trim (beforeFirstColon currentLine)
            let valuePart := Js.trim (afterFirstColon currentLine)
            if valuePart == "" then none
            else
              match chooseResult rx matchingRule keyPart valuePart with
              | none => none
              | some result =>
                if result.valid then none
                else
                  let valueStart := firstIndexOfFrom currentLine.data valuePart.data colonIndex
                  some ⟨line,
                    posToOffset lines ⟨line, valueStart⟩,
                    posToOffset lines ⟨line, valueStart + valuePart.length⟩,
                    result⟩

/-- Full-document validation pass
(value-validator-extension validateAllFrontmatter): every line is run
through processLine and the invalid outcomes are collected in order. -/
def validateAllFrontmatter (rules : List FieldRule) (rx : String → String → Option Bool)
    (parsed : Option Yaml) (lines : List String) : List ValidationError :=
  (List.range lines.length).filterMap (processLine rules rx parsed lines)

/-- Mutable driver state: the raw document text stored for the last
completed validation pass, keyed by the concatenation of the file path
and the cursor line (lastValidatedContent). -/
structure VState where
  lastValidatedContent : List (String × String) := []
deriving DecidableEq, Repr

/-- Lookup in the keyed store (Map.get). -/
def lookupKey (m : List (String × String)) (k : String) : Option String :=
  (m.find? (fun p => p.1 == k)).map (·.2)

/-- Update in the keyed store (Map.set): replace the entry when the key
is present, append otherwise. -/
def setKey (m : List (String × String)) (k v : String) : List (String × String) :=
  if (m.find? (fun p => p.1 == k)).isSome then
    m.map (fun p => if p.1 == k then (k, v) else p)
  else m ++ [(k, v)]

/-- Cursor-triggered validation
(value-validator-extension validateAtCursor): outside the block the pass
is skipped (and decorations cleared); otherwise the current raw document
text is compared against the text stored under the filePath-cursorLine
key, the pass is skipped on exact equality, and otherwise the store is
updated and a full validateAllFrontmatter pass runs.  Returns the new
state, whether a pass was performed (the side-channel counter of the
spec), and the errors of that pass. -/
def validateAtCursor (rules : List FieldRule) (rx : String → String → Option Bool)
    (parsed : Option Yaml) (st : VState) (filePath : String)
    (cursor : EditorPosition) (lines : List String) :
    VState × Bool × List ValidationError :=
  if ¬(FrontmatterParser.isInFrontmatter cursor lines) then (st, false, [])
  else
    let content := Js.joinWith "\n" lines
    let contentKey := filePath ++ "-" ++ toString cursor.line
    if lookupKey st.lastValidatedContent contentKey = some content then (st, false, [])
    else
      let st' : VState := ⟨setKey st.lastValidatedContent contentKey content⟩
      (st', true, validateAllFrontmatter rules rx parsed lines)

end ValueValidatorExtension

/-! Definitions used only to state theorems and witnesses. -/

/-- Regex engine that rejects every pattern as malformed; used as a
concrete engine in witnesses (no claim exercises pattern matching). -/
def rxNone : String → String → Option Bool := fun _ _ => none

/-- Demo rule declared for path A. -/
def ruleA : FieldRule := { fieldPath := "A" }

/-- Demo rule declared for path A.B. -/
def ruleAB : FieldRule := { fieldPath := "A.B" }

/-- The claimed insertion block, written exactly as the claim describes
it: per confirmed key in order, a newline, parentIndent+2 spaces, the
key, and a colon and space, with no other separators. -/
def claimInsertBlock (itemIndent : Nat) : List String → String
  | [] => ""
  | key :: rest =>
    "\n" ++ String.mk (List.replicate itemIndent ' ') ++ key ++ ": "
      ++ claimInsertBlock itemIndent rest

/-- The rule-level required outcome: the exact result the validate entry
point returns for empty input when the configuration marks the field
required. -/
def requiredOutcome (config : ValueConfig) : ValidationResult :=
  ⟨false, some (Js.orElseOptStr (config.validation.bind (·.customErrorMessage))
    "Value is required"), none⟩

/-- Path and indent of a resolver context, the two components the
strategy-equivalence claim compares. -/
def pathIndentOf (c : FieldPathContext) : String × Nat := (c.path, c.indent)

/-! Helper lemmas. -/

/-- find? returns the element at the first index satisfying the
predicate. -/
theorem find?_eq_some_of_first {α : Type} (p : α → Bool) :
    ∀ (l : List α) (i : Nat) (h : i < l.length),
      p (l.get ⟨i, h⟩) = true →
      (∀ j (hj : j < i), p (l.get ⟨j, Nat.lt_trans hj h⟩) = false) →
      l.find? p = some (l.get ⟨i, h⟩)
  | a :: _, 0, _, hp, _ => by
    have ha : p a = true := hp
    simp [List.find?_cons, ha]
  | a :: t, i + 1, h, hp, hfirst => by
    have ha : p a = false := hfirst 0 (Nat.succ_pos i)
    have ih := find?_eq_some_of_first p t i (Nat.lt_of_succ_lt_succ h) hp
      (fun j hj => hfirst (j + 1) (Nat.succ_lt_succ hj))
    rw [List.find?_cons, ha]
    exact ih

/-- String.mk of a string's own character list. -/
theorem strMk_data : ∀ s : String, String.mk s.data = s
  | ⟨_⟩ => rfl

/-- Data of an appended string. -/
theorem strAppend_data : ∀ a b : String, a ++ b = String.mk (a.data ++ b.data)
  | ⟨_⟩, ⟨_⟩ => rfl

/-- joinAll concatenates head and the join of the tail. -/
theorem joinAll_cons : ∀ (s : String) (l : List String),
    Js.joinAll (s :: l) = s ++ Js.joinAll l
  | ⟨_⟩, _ => rfl

/-- The per-key map-and-join of the source equals the claimed insertion
block. -/
theorem joinAll_insertRuns (itemIndent : Nat) :
    ∀ keys : List String,
      Js.joinAll (keys.map (fun key =>
        "\n" ++ String.mk (List.replicate itemIndent ' ') ++ key ++ ": "))
        = claimInsertBlock itemIndent keys
  | [] => rfl
  | k :: ks => by
    rw [List.map_cons, joinAll_cons, joinAll_insertRuns itemIndent ks]
    rfl

/-- C1: rule matching scans the configured rules once, in order, for an
exact path match and returns the first hit; only if no rule matches
exactly does it scan again, in order, and return the first rule whose
declared path followed by a dot is a prefix of the path; with no match in
either pass it returns none.  An exact match anywhere in the list beats
every prefix match, and within each pass the first-declared matching rule
wins. -/
theorem ruleMatching_twoPass_firstWins (rules : List FieldRule) (fieldPath : String) :
    ((∀ r ∈ rules, r.fieldPath ≠ fieldPath
        ∧ Js.startsWith fieldPath (r.fieldPath ++ ".") = false) →
      FrontmatterSuggester.findMatchingRule rules fieldPath = none)
    ∧ (∀ (i : Nat) (h : i < rules.length), (rules.get ⟨i, h⟩).fieldPath = fieldPath →
        (∀ (j : Nat) (hj : j < i), (rules.get ⟨j, Nat.lt_trans hj h⟩).fieldPath ≠ fieldPath) →
        FrontmatterSuggester.findMatchingRule rules fieldPath = some (rules.get ⟨i, h⟩))
    ∧ ((∀ r ∈ rules, r.fieldPath ≠ fieldPath) →
        ∀ (i : Nat) (h : i < rules.length),
          Js.startsWith fieldPath ((rules.get ⟨i, h⟩).fieldPath ++ ".") = true →
          (∀ (j : Nat) (hj : j < i),
            Js.startsWith fieldPath ((rules.get ⟨j, Nat.lt_trans hj h⟩).fieldPath ++ ".")
              = false) →
          FrontmatterSuggester.findMatchingRule rules fieldPath
            = some (rules.get ⟨i, h⟩)) := by
  refine ⟨?_, ?_, ?_⟩
  · intro hno
    have h1 : rules.find? (fun rule => rule.fieldPath == fieldPath) = none :=
      List.find?_eq_none.mpr (fun r hr => by simp [(hno r hr).1])
    have h2 : rules.find? (fun rule => Js.startsWith fieldPath (rule.fieldPath ++ ".")) = none :=
      List.find?_eq_none.mpr (fun r hr => by simp [(hno r hr).2])
    simp [FrontmatterSuggester.findMatchingRule, h1, h2]
  · intro i h hi hfirst
    have hfind := find?_eq_some_of_first (fun rule => rule.fieldPath == fieldPath) rules i h
      (by simp only [beq_iff_eq]; exact hi)
      (fun j hj => by simp only [beq_eq_false_iff_ne]; exact hfirst j hj)
    simp [FrontmatterSuggester.findMatchingRule, hfind]
  · intro hno i h hi hfirst
    have h1 : rules.find? (fun rule => rule.fieldPath == fieldPath) = none :=
      List.find?_eq_none.mpr (fun r hr => by simp [hno r hr])
    have h2 := find?_eq_some_of_first
      (fun rule => Js.startsWith fieldPath (rule.fieldPath ++ ".")) rules i h hi hfirst
    simp [FrontmatterSuggester.findMatchingRule, h1, h2]

/-- Witness for C1 at concrete inputs: the second-declared rule matches
the path A exactly while the first-declared one does not, so the exact
pass returns it. -/
theorem ruleMatching_twoPass_firstWins_witness :
    FrontmatterSuggester.findMatchingRule [ruleAB, ruleA] "A" = some ruleA := by
  have h := (ruleMatching_twoPass_firstWins [ruleAB, ruleA] "A").2.1 1 (by decide)
    (by decide) (fun j hj => by
      have hj0 : j = 0 := by omega
      subst hj0
      show ruleAB.fieldPath ≠ "A"
      decide)
  exact h

/-- C2 counterexample: with the rule declared for A configured before the
rule declared for A.B, matching the path A.B.c returns the rule declared
for A, because the prefix pass is first-declared-wins and A followed by a
dot is also a prefix of A.B.c. -/
theorem ruleMatching_specificity_counterexample :
    FrontmatterSuggester.findMatchingRule [ruleA, ruleAB] "A.B.c" = some ruleA
    ∧ ruleA.fieldPath = "A" ∧ ruleAB.fieldPath = "A.B"
    ∧ FrontmatterSuggester.findMatchingRule [ruleA, ruleAB] "A.B.c" ≠ some ruleAB :=
  ⟨by decide, rfl, rfl, by decide⟩

/-- C2 amended: which of the two rules wins on the path A.B.c is decided
by configuration order; the rule declared for A.B is returned exactly
when it is configured before the rule declared for A, and with the
opposite order the rule declared for A is returned. -/
theorem ruleMatching_order_decides (r1 r2 : FieldRule)
    (h1 : r1.fieldPath = "A.B") (h2 : r2.fieldPath = "A") :
    FrontmatterSuggester.findMatchingRule [r1, r2] "A.B.c" = some r1
    ∧ FrontmatterSuggester.findMatchingRule [r2, r1] "A.B.c" = some r2 := by
  have e1 : (r1.fieldPath == "A.B.c") = false := by rw [h1]; decide
  have e2 : (r2.fieldPath == "A.B.c") = false := by rw [h2]; decide
  have p1 : Js.startsWith "A.B.c" (r1.fieldPath ++ ".") = true := by rw [h1]; decide
  have p2 : Js.startsWith "A.B.c" (r2.fieldPath ++ ".") = true := by rw [h2]; decide
  constructor <;>
    simp [FrontmatterSuggester.findMatchingRule, List.find?_cons, e1, e2, p1, p2]

/-- Witness for the amended C2 at concrete inputs: the two demo rules in
each order. -/
theorem ruleMatching_order_decides_witness :
    FrontmatterSuggester.findMatchingRule [ruleAB, ruleA] "A.B.c" = some ruleAB
    ∧ FrontmatterSuggester.findMatchingRule [ruleA, ruleAB] "A.B.c" = some ruleA :=
  ruleMatching_order_decides ruleAB ruleA rfl rfl

/-- C5: in multi-select mode a confirmation toggles the option's key in
the ordered selected-set, appending it at the end when absent and
removing it when present, so re-selecting after a deselect re-appends at
the end; the toggle sequence on a, on b, off a, on a therefore leaves the
confirmation order b then a. -/
theorem multiSelect_toggle_order :
    (∀ (sel : List String) (key : String), sel.contains key = false →
      FrontmatterSuggester.toggleSelection sel key = sel ++ [key])
    ∧ (∀ (sel : List String) (key : String), sel.contains key = true →
      FrontmatterSuggester.toggleSelection sel key = sel.erase key)
    ∧ ∀ a b : String, a ≠ b →
      FrontmatterSuggester.toggleSelection (FrontmatterSuggester.toggleSelection
        (FrontmatterSuggester.toggleSelection
          (FrontmatterSuggester.toggleSelection [] a) b) a) a = [b, a] := by
  refine ⟨?_, ?_, ?_⟩
  · intro sel key h
    unfold FrontmatterSuggester.toggleSelection
    rw [h]
    simp
  · intro sel key h
    unfold FrontmatterSuggester.toggleSelection
    rw [h]
    simp
  · intro a b hab
    simp [FrontmatterSuggester.toggleSelection, hab, Ne.symm hab]

/-- Witness for C5 at concrete keys. -/
theorem multiSelect_toggle_order_witness :
    FrontmatterSuggester.toggleSelection (FrontmatterSuggester.toggleSelection
      (FrontmatterSuggester.toggleSelection
        (FrontmatterSuggester.toggleSelection [] "a") "b") "a") "a" = ["b", "a"] :=
  multiSelect_toggle_order.2.2 "a" "b" (by decide)

/-- C6: option-level number validation accepts 10km against the unit list
km, rejects 10miles against it with a suggestion naming km, accepts a
bare 50 against the empty unit list, rejects 50km against the empty unit
list with a no-unit-expected error, and for every non-empty declared unit
list rejects any input whose numeral parses but carries no unit with a
unit-required error. -/
theorem optionNumber_unit_validation :
    OptionValidator.validateNumber "10km" ["km"] = ⟨true, none, none⟩
    ∧ (OptionValidator.validateNumber "10miles" ["km"]).valid = false
    ∧ (OptionValidator.validateNumber "10miles" ["km"]).suggestion = some "Valid units: km"
    ∧ OptionValidator.validateNumber "50" [] = ⟨true, none, none⟩
    ∧ OptionValidator.validateNumber "50km" []
        = ⟨false, some "No unit expected", some "Enter plain number"⟩
    ∧ ∀ (units : List String) (value : String), units ≠ [] →
        (parseNumberWithUnit value).map ParsedNumber.unit = some none →
        OptionValidator.validateNumber value units
          = ⟨false, some "Unit required",
              some ("Valid units: " ++ Js.joinWith ", " units)⟩ := by
  refine ⟨by decide, by decide, by decide, by decide, by decide, ?_⟩
  intro units value hunits hparse
  match hp : parseNumberWithUnit value with
  | none => rw [hp] at hparse; simp at hparse
  | some pr =>
    rw [hp] at hparse
    have hu : pr.unit = none := by simpa using hparse
    simp [OptionValidator.validateNumber, hp, hu, hunits]

/-- Witness for C6 at a concrete unit-less numeral and non-empty unit
list. -/
theorem optionNumber_unit_validation_witness :
    OptionValidator.validateNumber "7" ["km"]
      = ⟨false, some "Unit required", some ("Valid units: " ++ Js.joinWith ", " ["km"])⟩ :=
  optionNumber_unit_validation.2.2.2.2.2 ["km"] "7" (by decide) (by decide)

/-- C3: suggestion generation returns a non-empty list only when the
depth of the resolved cursor path (count of non-empty dot-separated
segments) equals the depth of the matched rule's declared field path, and
for every resolved path of any other depth the generated list is
empty. -/
theorem suggestions_depth_gate :
    (∀ (rule : FieldRule) (parsed : Option Yaml) (cursor : EditorPosition)
        (lines : List String),
      FrontmatterSuggester.generateSuggestions rule parsed cursor lines ≠ [] →
      ∃ fieldContext,
        FrontmatterParser.getCurrentFieldPath parsed cursor lines = some fieldContext
        ∧ FrontmatterSuggester.calculatePathDepth fieldContext.path
          = FrontmatterSuggester.calculatePathDepth (FrontmatterSuggester.ruleFieldPathOf rule))
    ∧ ∀ (rule : FieldRule) (parsed : Option Yaml) (cursor : EditorPosition)
        (lines : List String) (fieldContext : FieldPathContext),
      FrontmatterParser.getCurrentFieldPath parsed cursor lines = some fieldContext →
      FrontmatterSuggester.calculatePathDepth fieldContext.path
        ≠ FrontmatterSuggester.calculatePathDepth (FrontmatterSuggester.ruleFieldPathOf rule) →
      FrontmatterSuggester.generateSuggestions rule parsed cursor lines = [] := by
  constructor
  · intro rule parsed cursor lines hne
    unfold FrontmatterSuggester.generateSuggestions at hne
    match hc : FrontmatterParser.getCurrentFieldPath parsed cursor lines with
    | none => rw [hc] at hne; simp at hne
    | some ctx =>
      rw [hc] at hne
      have hne' : (if FrontmatterSuggester.calculatePathDepth ctx.path
          = FrontmatterSuggester.calculatePathDepth (FrontmatterSuggester.ruleFieldPathOf rule)
          then FrontmatterSuggester.generateParentFieldSuggestions rule parsed lines
          else []) ≠ [] := hne
      by_cases hd : FrontmatterSuggester.calculatePathDepth ctx.path
          = FrontmatterSuggester.calculatePathDepth (FrontmatterSuggester.ruleFieldPathOf rule)
      · exact ⟨ctx, rfl, hd⟩
      · rw [if_neg hd] at hne'
        simp at hne'
  · intro rule parsed cursor lines ctx hc hd
    unfold FrontmatterSuggester.generateSuggestions
    rw [hc]
    show (if FrontmatterSuggester.calculatePathDepth ctx.path
        = FrontmatterSuggester.calculatePathDepth (FrontmatterSuggester.ruleFieldPathOf rule)
        then FrontmatterSuggester.generateParentFieldSuggestions rule parsed lines
        else []) = []
    rw [if_neg hd]

/-- Witness for C3 at a concrete document: the resolved path A has depth
1 while the rule's declared path A.B has depth 2, so no suggestions are
generated. -/
theorem suggestions_depth_gate_witness :
    FrontmatterSuggester.generateSuggestions ruleAB none ⟨1, 0⟩ ["---", "A: ", "---"] = [] :=
  suggestions_depth_gate.2 ruleAB none ⟨1, 0⟩ ["---", "A: ", "---"]
    ⟨"A", 1, 0, none⟩ rfl (by decide)

/-- C4: when the cursor line carries a field token and n keys are
confirmed, the insertion is appended at the end of that line and consists
per confirmed key, in order, of a newline, parentIndent+2 spaces, the key
and a colon-space, with no other separators; the final cursor sits at
line = original line + n and column = (parentIndent+2) + length(lastKey)
+ 2; and the single-select insertion is exactly the n = 1 instance of the
multi-select flush. -/
theorem parentLine_insertion_recipe (keys : List String) (key : String)
    (cursor : EditorPosition) (lines : List String) (fieldContextIndent : Nat)
    (hfield : (FrontmatterParser.extractFieldName (lines.getD cursor.line "")).isSome = true)
    (_hne : keys ≠ []) :
    (FrontmatterSuggester.handleMultiSelection keys cursor lines fieldContextIndent).text
      = claimInsertBlock (fieldContextIndent + 2) keys
    ∧ (FrontmatterSuggester.handleMultiSelection keys cursor lines fieldContextIndent).fromPos
      = ⟨cursor.line, (lines.getD cursor.line "").length⟩
    ∧ (FrontmatterSuggester.handleMultiSelection keys cursor lines fieldContextIndent).toPos
      = none
    ∧ (FrontmatterSuggester.handleMultiSelection keys cursor lines fieldContextIndent).cursorAfter
      = ⟨cursor.line + keys.length, (fieldContextIndent + 2) + (keys.getLastD "").length + 2⟩
    ∧ FrontmatterSuggester.handleParentFieldSelection key cursor lines fieldContextIndent
      = FrontmatterSuggester.handleMultiSelection [key] cursor lines fieldContextIndent := by
  obtain ⟨f, hf⟩ := Option.isSome_iff_exists.mp hfield
  refine ⟨?_, ?_, ?_, ?_, ?_⟩
  · simp only [FrontmatterSuggester.handleMultiSelection, hf]
    exact joinAll_insertRuns (fieldContextIndent + 2) keys
  · simp only [FrontmatterSuggester.handleMultiSelection, hf]
  · simp only [FrontmatterSuggester.handleMultiSelection, hf]
  · simp only [FrontmatterSuggester.handleMultiSelection, hf]
  · simp only [FrontmatterSuggester.handleParentFieldSelection,
      FrontmatterSuggester.handleMultiSelection, hf]
    simp [Js.joinAll, strMk_data, strAppend_data, List.append_assoc]

/-- Witness for C4 at a concrete parent line, two confirmed keys and one
single-selected key. -/
theorem parentLine_insertion_recipe_witness :
    (FrontmatterSuggester.handleMultiSelection ["x", "yy"] ⟨1, 3⟩ ["---", "A: ", "---"] 0).text
      = claimInsertBlock 2 ["x", "yy"]
    ∧ (FrontmatterSuggester.handleMultiSelection ["x", "yy"] ⟨1, 3⟩
        ["---", "A: ", "---"] 0).cursorAfter = ⟨3, 6⟩
    ∧ FrontmatterSuggester.handleParentFieldSelection "x" ⟨1, 3⟩ ["---", "A: ", "---"] 0
      = FrontmatterSuggester.handleMultiSelection ["x"] ⟨1, 3⟩ ["---", "A: ", "---"] 0 := by
  have h := parentLine_insertion_recipe ["x", "yy"] "x" ⟨1, 3⟩ ["---", "A: ", "---"] 0
    (by decide) (by decide)
  exact ⟨h.1, h.2.2.2.1, h.2.2.2.2⟩

/-- findDelimiterIdx returns an in-range index of a line trimming to the
marker. -/
theorem findDelimiterIdx_spec : ∀ (l : List String) (j : Nat),
    FrontmatterParser.findDelimiterIdx l = some j →
    j < l.length ∧ Js.trim (l.getD j "") = "---" := by
  intro l
  induction l with
  | nil => intro j h; exact Option.noConfusion h
  | cons a t ih =>
    intro j h
    unfold FrontmatterParser.findDelimiterIdx at h
    by_cases ha : Js.trim a == "---"
    · rw [if_pos ha] at h
      obtain rfl : 0 = j := Option.some.inj h
      exact ⟨Nat.succ_pos _, by simpa using ha⟩
    · rw [if_neg ha] at h
      match hj : FrontmatterParser.findDelimiterIdx t with
      | none => rw [hj] at h; simp at h
      | some j' =>
        rw [hj] at h
        simp only [Option.map_some'] at h
        obtain rfl : j' + 1 = j := Option.some.inj h
        obtain ⟨hl, hv⟩ := ih j' hj
        exact ⟨Nat.succ_lt_succ hl, by simpa using hv⟩

/-- Facts recoverable from a successful bounds computation: the block
opens at line 0, the closing line is a later in-range line, and both
lines trim to the marker. -/
theorem getFrontmatterBounds_spec (lines : List String) (b : FrontmatterBounds)
    (hb : FrontmatterParser.getFrontmatterBounds lines = some b) :
    b.start = 0 ∧ 0 < b.stop ∧ b.stop < lines.length
    ∧ Js.trim (lines.getD 0 "") = "---" ∧ Js.trim (lines.getD b.stop "") = "---" := by
  match lines with
  | [] => exact Option.noConfusion hb
  | l0 :: rest =>
    have hb' : (if Js.trim l0 == "---" then
        Option.map (fun j => ({ start := 0, stop := j + 1 } : FrontmatterBounds))
          (FrontmatterParser.findDelimiterIdx rest)
        else none) = some b := hb
    by_cases h0 : Js.trim l0 == "---"
    · rw [if_pos h0] at hb'
      match hj : FrontmatterParser.findDelimiterIdx rest with
      | none => rw [hj] at hb'; exact Option.noConfusion hb'
      | some j =>
        rw [hj] at hb'
        simp only [Option.map_some'] at hb'
        obtain rfl : ({ start := 0, stop := j + 1 } : FrontmatterBounds) = b :=
          Option.some.inj hb'
        obtain ⟨hl, hv⟩ := findDelimiterIdx_spec rest j hj
        exact ⟨rfl, Nat.succ_pos _, Nat.succ_lt_succ hl, by simpa using h0, by simpa using hv⟩
    · rw [if_neg h0] at hb'
      exact Option.noConfusion hb'

/-- C7: field-path resolution is total (never throws) and yields a
context only when line 0 trims to the delimiter marker, a later line also
trims to the marker, and the cursor line lies strictly between line 0 and
that line; whenever bounds exist, every cursor outside the exclusive
range between the two delimiter lines resolves to none, and without
bounds everything resolves to none. -/
theorem resolver_requires_frontmatter_block (parsed : Option Yaml)
    (cursor : EditorPosition) (lines : List String) :
    (∀ ctx, FrontmatterParser.getCurrentFieldPath parsed cursor lines = some ctx →
      Js.trim (lines.getD 0 "") = "---"
      ∧ ∃ e, 0 < e ∧ e < lines.length ∧ Js.trim (lines.getD e "") = "---"
          ∧ 0 < cursor.line ∧ cursor.line < e)
    ∧ (∀ b, FrontmatterParser.getFrontmatterBounds lines = some b →
        ¬(b.start < cursor.line ∧ cursor.line < b.stop) →
        FrontmatterParser.getCurrentFieldPath parsed cursor lines = none)
    ∧ (FrontmatterParser.getFrontmatterBounds lines = none →
        FrontmatterParser.getCurrentFieldPath parsed cursor lines = none) := by
  refine ⟨?_, ?_, ?_⟩
  · intro ctx h
    match hb : FrontmatterParser.getFrontmatterBounds lines with
    | none => simp [FrontmatterParser.getCurrentFieldPath, hb] at h
    | some b =>
      obtain ⟨hs, hpos, hlen, h0, he⟩ := getFrontmatterBounds_spec lines b hb
      match hif : FrontmatterParser.isInFrontmatter cursor lines with
      | false => simp [FrontmatterParser.getCurrentFieldPath, hb, hif] at h
      | true =>
        have hin : b.start < cursor.line ∧ cursor.line < b.stop := by
          unfold FrontmatterParser.isInFrontmatter at hif
          rw [hb] at hif
          simpa using hif
        exact ⟨h0, b.stop, hpos, hlen, he, by omega, hin.2⟩
  · intro b hb hout
    have hif : FrontmatterParser.isInFrontmatter cursor lines = false := by
      unfold FrontmatterParser.isInFrontmatter
      rw [hb]
      simpa using hout
    simp [FrontmatterParser.getCurrentFieldPath, hb, hif]
  · intro hb
    simp [FrontmatterParser.getCurrentFieldPath, hb]

/-- Witness for C7: a concrete block with the cursor on the closing
delimiter line, outside the exclusive range, resolves to none. -/
theorem resolver_requires_frontmatter_block_witness :
    FrontmatterParser.getCurrentFieldPath none ⟨2, 0⟩ ["---", "a: 1", "---"] = none :=
  (resolver_requires_frontmatter_block none ⟨2, 0⟩ ["---", "a: 1", "---"]).2.1
    ⟨0, 2⟩ (by decide) (by decide)

/-- An element on which the predicate is false survives dropWhile. -/
theorem mem_dropWhile_of_neg {α : Type} (p : α → Bool) (c : α) (hc : p c = false) :
    ∀ l : List α, c ∈ l → c ∈ l.dropWhile p
  | a :: t, hm => by
    by_cases ha : p a = true
    · rw [List.dropWhile_cons_of_pos ha]
      rcases List.mem_cons.mp hm with rfl | hmt
      · simp [hc] at ha
      · exact mem_dropWhile_of_neg p c hc t hmt
    · rw [List.dropWhile_cons_of_neg ha]
      exact hm

/-- Non-whitespace characters survive trimming. -/
theorem mem_trimChars {c : Char} (hc : Js.isWs c = false) {cs : List Char}
    (hm : c ∈ cs) : c ∈ Js.trimChars cs := by
  unfold Js.trimChars
  rw [List.mem_reverse]
  exact mem_dropWhile_of_neg _ _ hc _
    (List.mem_reverse.mpr (mem_dropWhile_of_neg _ _ hc _ hm))

/-- A line that trims to the delimiter marker contains no colon, hence
carries no field token. -/
theorem extractFieldName_of_trim_marker (s : String) (hs : Js.trim s = "---") :
    FrontmatterParser.extractFieldName s = none := by
  have hdata : Js.trimChars s.data = "---".data := congrArg String.data hs
  have hcon : s.data.contains ':' = false := by
    by_contra hx
    have hmem : ':' ∈ s.data := by
      cases h : s.data.contains ':' with
      | false => exact absurd h hx
      | true => simpa using h
    have hin : ':' ∈ Js.trimChars s.data := mem_trimChars (by decide) hmem
    rw [hdata] at hin
    exact absurd hin (by decide)
  unfold FrontmatterParser.extractFieldName
  rw [if_neg (by rw [hcon]; simp)]

/-- At or below the stop line the walk returns its accumulator. -/
theorem walkUp_le_stop (lines : List String) (stop : Nat) :
    ∀ (sl : Nat) (expected : Int) (path : List String), sl ≤ stop →
      FrontmatterParser.walkUp lines stop sl expected path = path
  | 0, _, _, _ => rfl
  | sl + 1, expected, path, h => by
    unfold FrontmatterParser.walkUp
    rw [if_neg (by omega)]

/-- Raising the stop line by one does not change the walk when the line
at the old stop carries no field token (in the source, the line at the
heuristic's stop is the opening delimiter). -/
theorem walkUp_stop_succ (lines : List String) (stop : Nat)
    (hno : FrontmatterParser.extractFieldName (lines.getD stop "") = none) :
    ∀ (sl : Nat) (expected : Int) (path : List String),
      FrontmatterParser.walkUp lines stop sl expected path
        = FrontmatterParser.walkUp lines (stop + 1) sl expected path
  | 0, _, _ => rfl
  | sl + 1, expected, path => by
    by_cases hgt : stop + 1 < sl + 1
    · have hgt' : stop < sl + 1 := by omega
      have IH := fun e p => walkUp_stop_succ lines stop hno sl e p
      unfold FrontmatterParser.walkUp
      rw [if_pos hgt', if_pos hgt]
      by_cases hblank : (Js.trim (lines.getD sl "") == "") = true
      · simp only [hblank, if_true]
        exact IH _ _
      · simp only [hblank, if_false, Bool.false_eq_true]
        cases hfn : FrontmatterParser.extractFieldName (lines.getD sl "") with
        | none => simp only [hfn]; exact IH _ _
        | some f =>
          simp only [hfn]
          by_cases hind : (FrontmatterParser.getIndent (lines.getD sl "") : Int) = expected
          · rw [if_pos hind, if_pos hind]
            exact IH _ _
          · rw [if_neg hind, if_neg hind]
            exact IH _ _
    · by_cases hgt' : stop < sl + 1
      · have hsl : sl = stop := by omega
        subst hsl
        unfold FrontmatterParser.walkUp
        rw [if_pos hgt', if_neg hgt]
        by_cases hblank : (Js.trim (lines.getD sl "") == "") = true
        · simp only [hblank, if_true]
          exact walkUp_le_stop lines sl sl expected path (Nat.le_refl sl)
        · simp only [hblank, if_false, Bool.false_eq_true]
          simp only [hno]
          exact walkUp_le_stop lines sl sl expected path (Nat.le_refl sl)
      · rw [walkUp_le_stop lines stop (sl + 1) expected path (by omega),
          walkUp_le_stop lines (stop + 1) (sl + 1) expected path (by omega)]

/-- Assembling with different values yields the same path and indent. -/
theorem assembleContext_pathIndent (path : List String) (lineNo indent : Nat)
    (v1 v2 : Option Yaml) :
    (FrontmatterParser.assembleContext path lineNo indent v1).map pathIndentOf
      = (FrontmatterParser.assembleContext path lineNo indent v2).map pathIndentOf := by
  unfold FrontmatterParser.assembleContext
  split
  · rfl
  · rfl

/-- The heuristic strategy's path and indent do not depend on the
optional value tree it is handed. -/
theorem heuristic_pathIndent_value_free (cursor : EditorPosition) (lines : List String)
    (bounds : FrontmatterBounds) (y1 y2 : Option Yaml) :
    (FrontmatterParser.getCurrentFieldPathHeuristic cursor lines bounds y1).map pathIndentOf
      = (FrontmatterParser.getCurrentFieldPathHeuristic cursor lines bounds y2).map
          pathIndentOf := by
  simp only [FrontmatterParser.getCurrentFieldPathHeuristic]
  exact assembleContext_pathIndent _ _ _ _ _

/-- The structured strategy called with the block's first interior line
as its stop and the heuristic strategy called with the opening delimiter
line as its stop produce the same path and indent: the extra line the
heuristic examines is the delimiter, which carries no field token. -/
theorem strategies_pathIndent_eq (y : Yaml) (yOpt : Option Yaml) (cursor : EditorPosition)
    (lines : List String) (b : FrontmatterBounds)
    (hb : FrontmatterParser.getFrontmatterBounds lines = some b) :
    (FrontmatterParser.getFieldPathFromYAML y cursor (b.start + 1) lines).map pathIndentOf
      = (FrontmatterParser.getCurrentFieldPathHeuristic cursor lines b yOpt).map
          pathIndentOf := by
  obtain ⟨hs, _, _, h0, _⟩ := getFrontmatterBounds_spec lines b hb
  have hno : FrontmatterParser.extractFieldName (lines.getD b.start "") = none := by
    rw [hs]
    exact extractFieldName_of_trim_marker _ h0
  have hwalk : ∀ (e : Int) (p : List String),
      FrontmatterParser.walkUp lines b.start cursor.line e p
        = FrontmatterParser.walkUp lines (b.start + 1) cursor.line e p :=
    fun e p => walkUp_stop_succ lines b.start hno cursor.line e p
  simp only [FrontmatterParser.getFieldPathFromYAML,
    FrontmatterParser.getCurrentFieldPathHeuristic]
  rw [← hwalk]
  exact assembleContext_pathIndent _ _ _ _ _

/-- The full resolver's path and indent equal the heuristic result inside
the block, regardless of the parse outcome. -/
theorem getCurrentFieldPath_pathIndent (parsed : Option Yaml) (cursor : EditorPosition)
    (lines : List String) :
    (FrontmatterParser.getCurrentFieldPath parsed cursor lines).map pathIndentOf
      = (match FrontmatterParser.getFrontmatterBounds lines with
        | none => none
        | some b =>
          if FrontmatterParser.isInFrontmatter cursor lines then
            (FrontmatterParser.getCurrentFieldPathHeuristic cursor lines b none).map pathIndentOf
          else none) := by
  match hb : FrontmatterParser.getFrontmatterBounds lines with
  | none => simp [FrontmatterParser.getCurrentFieldPath, hb]
  | some b =>
    simp only [FrontmatterParser.getCurrentFieldPath, hb]
    by_cases hin : FrontmatterParser.isInFrontmatter cursor lines = true
    · rw [if_pos hin, if_pos hin]
      match parsed with
      | none => exact heuristic_pathIndent_value_free cursor lines b none none
      | some y =>
        show (Option.map pathIndentOf
            (match FrontmatterParser.getFieldPathFromYAML y cursor (b.start + 1) lines with
            | some result => some result
            | none => FrontmatterParser.getCurrentFieldPathHeuristic cursor lines b (some y)))
          = _
        match hyam : FrontmatterParser.getFieldPathFromYAML y cursor (b.start + 1) lines with
        | some r =>
          have k1 := strategies_pathIndent_eq y none cursor lines b hb
          rw [hyam] at k1
          exact k1
        | none =>
          exact heuristic_pathIndent_value_free cursor lines b (some y) none
    · rw [if_neg hin, if_neg hin]
      rfl

/-- C8: the structured (parse-tree) strategy and the heuristic strategy
compute the same dotted path and the same indentation, and the outcome of
the structured parse (any tree, or a parse failure) never changes the
path or indent returned by the full resolver; the strategies differ only
in whether a resolved value can be supplied. -/
theorem strategies_agree_on_path_and_indent :
    (∀ (y : Yaml) (yOpt : Option Yaml) (cursor : EditorPosition) (lines : List String)
        (b : FrontmatterBounds),
      FrontmatterParser.getFrontmatterBounds lines = some b →
      (FrontmatterParser.getFieldPathFromYAML y cursor (b.start + 1) lines).map pathIndentOf
        = (FrontmatterParser.getCurrentFieldPathHeuristic cursor lines b yOpt).map pathIndentOf)
    ∧ ∀ (p1 p2 : Option Yaml) (cursor : EditorPosition) (lines : List String),
      (FrontmatterParser.getCurrentFieldPath p1 cursor lines).map pathIndentOf
        = (FrontmatterParser.getCurrentFieldPath p2 cursor lines).map pathIndentOf := by
  refine ⟨fun y yOpt cursor lines b hb => strategies_pathIndent_eq y yOpt cursor lines b hb, ?_⟩
  intro p1 p2 cursor lines
  rw [getCurrentFieldPath_pathIndent p1, getCurrentFieldPath_pathIndent p2]

/-- Witness for C8 at a concrete document checking the two strategies on
the block ["---", "a: 1", "---"] with the cursor on the interior line. -/
theorem strategies_agree_on_path_and_indent_witness :
    (FrontmatterParser.getFieldPathFromYAML Yaml.nullv ⟨1, 0⟩ 1 ["---", "a: 1", "---"]).map
        pathIndentOf
      = (FrontmatterParser.getCurrentFieldPathHeuristic ⟨1, 0⟩ ["---", "a: 1", "---"]
          ⟨0, 2⟩ none).map pathIndentOf :=
  strategies_agree_on_path_and_indent.1 Yaml.nullv none ⟨1, 0⟩ ["---", "a: 1", "---"]
    ⟨0, 2⟩ (by decide)

/-- Lookup after replacing the entry of a present key. -/
theorem lookupKey_map_replace (k v : String) :
    ∀ m : List (String × String), (m.find? (fun p => p.1 == k)).isSome = true →
      ValueValidatorExtension.lookupKey
        (m.map (fun p => if p.1 == k then (k, v) else p)) k = some v
  | a :: t, h => by
    by_cases ha : (a.1 == k) = true
    · simp only [List.map_cons, if_pos ha]
      unfold ValueValidatorExtension.lookupKey
      rw [List.find?_cons]
      simp
    · simp only [List.map_cons, if_neg ha]
      have ha' : (a.1 == k) = false := by
        cases hh : (a.1 == k)
        · rfl
        · exact absurd hh ha
      unfold ValueValidatorExtension.lookupKey
      rw [List.find?_cons, ha']
      have hts : (t.find? (fun p => p.1 == k)).isSome = true := by
        rw [List.find?_cons, ha'] at h
        exact h
      exact lookupKey_map_replace k v t hts

/-- Lookup after appending a fresh key. -/
theorem lookupKey_append_new (k v : String) :
    ∀ m : List (String × String), m.find? (fun p => p.1 == k) = none →
      ValueValidatorExtension.lookupKey (m ++ [(k, v)]) k = some v
  | [], _ => by
    unfold ValueValidatorExtension.lookupKey
    simp [List.find?_cons]
  | a :: t, h => by
    have ha : (a.1 == k) = false := by
      cases hh : (a.1 == k)
      · rfl
      · rw [List.find?_cons, hh] at h
        exact absurd h (by simp)
    rw [List.find?_cons, ha] at h
    rw [List.cons_append]
    unfold ValueValidatorExtension.lookupKey
    rw [List.find?_cons, ha]
    exact lookupKey_append_new k v t h

/-- Lookup of a key just stored by setKey returns the stored text. -/
theorem lookupKey_setKey (m : List (String × String)) (k v : String) :
    ValueValidatorExtension.lookupKey (ValueValidatorExtension.setKey m k v) k = some v := by
  unfold ValueValidatorExtension.setKey
  by_cases hp : (m.find? (fun p => p.1 == k)).isSome = true
  · rw [if_pos hp]
    exact lookupKey_map_replace k v m hp
  · rw [if_neg hp]
    apply lookupKey_append_new
    cases hf : m.find? (fun p => p.1 == k)
    · rfl
    · rw [hf] at hp
      simp at hp

/-- Inside the block, a cursor-triggered validation leaves the current
document text stored under the filePath-cursorLine key. -/
theorem validateAtCursor_records (rules : List FieldRule)
    (rx : String → String → Option Bool) (parsed : Option Yaml)
    (st : ValueValidatorExtension.VState) (filePath : String)
    (cursor : EditorPosition) (lines : List String)
    (hin : FrontmatterParser.isInFrontmatter cursor lines = true) :
    ValueValidatorExtension.lookupKey
      ((ValueValidatorExtension.validateAtCursor rules rx parsed st filePath
        cursor lines).1).lastValidatedContent
      (filePath ++ "-" ++ toString cursor.line) = some (Js.joinWith "\n" lines) := by
  simp only [ValueValidatorExtension.validateAtCursor]
  rw [if_neg (by simp [hin])]
  by_cases hl : ValueValidatorExtension.lookupKey st.lastValidatedContent
      (filePath ++ "-" ++ toString cursor.line) = some (Js.joinWith "\n" lines)
  · rw [if_pos hl]
    exact hl
  · rw [if_neg hl]
    exact lookupKey_setKey _ _ _

/-- C9 amended: the skip comparison is keyed by document identity and
cursor line together, so immediately re-validating with the same
document, the same raw text and the same cursor line never performs a
second pass, whatever the first call did; re-validating the unchanged
document at a different cursor line is outside the cache key and re-runs
the pass. -/
theorem validation_skip_same_line (rules : List FieldRule)
    (rx : String → String → Option Bool) (parsed : Option Yaml)
    (st : ValueValidatorExtension.VState) (filePath : String)
    (cursor : EditorPosition) (lines : List String) :
    (ValueValidatorExtension.validateAtCursor rules rx parsed
      (ValueValidatorExtension.validateAtCursor rules rx parsed st filePath
        cursor lines).1
      filePath cursor lines).2.1 = false := by
  by_cases hin : FrontmatterParser.isInFrontmatter cursor lines = true
  · have hrec := validateAtCursor_records rules rx parsed st filePath cursor lines hin
    generalize hst : (ValueValidatorExtension.validateAtCursor rules rx parsed st filePath
      cursor lines).1 = st1
    rw [hst] at hrec
    simp only [ValueValidatorExtension.validateAtCursor]
    rw [if_neg (by simp [hin]), if_pos hrec]
  · generalize (ValueValidatorExtension.validateAtCursor rules rx parsed st filePath
      cursor lines).1 = st1
    simp only [ValueValidatorExtension.validateAtCursor]
    rw [if_pos (by simp [hin])]

/-- C9 counterexample: the cache key is the file path concatenated with
the cursor line, not the document identity alone; with the unchanged
document ["---", "a: 1", "b: 2", "---"] of file f, a first validation at
line 1 runs a pass and an immediate second validation at line 2 runs a
full pass again, so an unchanged document is re-validated. -/
theorem validation_skip_not_per_document :
    (ValueValidatorExtension.validateAtCursor [] rxNone none ⟨[]⟩ "f" ⟨1, 0⟩
      ["---", "a: 1", "b: 2", "---"]).2.1 = true
    ∧ (ValueValidatorExtension.validateAtCursor [] rxNone none
        (ValueValidatorExtension.validateAtCursor [] rxNone none ⟨[]⟩ "f" ⟨1, 0⟩
          ["---", "a: 1", "b: 2", "---"]).1 "f" ⟨2, 0⟩
        ["---", "a: 1", "b: 2", "---"]).2.1 = true :=
  ⟨by decide, by decide⟩

/-- dropWhile yields nil or starts with an element failing the
predicate. -/
theorem dropWhile_eq_nil_or_head {α : Type} (p : α → Bool) :
    ∀ l : List α, l.dropWhile p = [] ∨ ∃ a t, l.dropWhile p = a :: t ∧ p a = false
  | [] => Or.inl rfl
  | a :: t => by
    by_cases ha : p a = true
    · rw [List.dropWhile_cons_of_pos ha]
      exact dropWhile_eq_nil_or_head p t
    · rw [List.dropWhile_cons_of_neg ha]
      exact Or.inr ⟨a, t, rfl, by simpa using ha⟩

/-- A nonempty trim result contains a non-whitespace character. -/
theorem trimChars_has_solid (cs : List Char) (h : Js.trimChars cs ≠ []) :
    ∃ c, c ∈ Js.trimChars cs ∧ Js.isWs c = false := by
  unfold Js.trimChars at *
  rcases dropWhile_eq_nil_or_head Js.isWs ((cs.dropWhile Js.isWs).reverse) with h0 | hh
  · rw [h0] at h
    simp at h
  · obtain ⟨a, t, ht, ha⟩ := hh
    rw [ht]
    exact ⟨a, by simp, ha⟩

/-- Trimming is stable on nonemptiness: the trim of a nonempty trim is
still nonempty (the source validators re-trim the already-trimmed value
part handed to them by the driver). -/
theorem trim_trim_ne (s : String) (h : Js.trim s ≠ "") : Js.trim (Js.trim s) ≠ "" := by
  have hd : Js.trimChars s.data ≠ [] := by
    intro hh
    exact h (by unfold Js.trim; rw [hh])
  obtain ⟨c, hc, hcw⟩ := trimChars_has_solid s.data hd
  have hmem : c ∈ Js.trimChars (Js.trim s).data := by
    have hdata : (Js.trim s).data = Js.trimChars s.data := rfl
    rw [hdata]
    exact mem_trimChars hcw hc
  intro hh
  have hnil : Js.trimChars (Js.trim s).data = [] := congrArg String.data hh
  rw [hnil] at hmem
  exact absurd hmem (by simp)

/-- Every invalid outcome of option-level number validation carries a
suggestion. -/
theorem optionValidateNumber_shape (value : String) (units : List String) :
    (OptionValidator.validateNumber value units).valid = true
      ∨ ∃ s, (OptionValidator.validateNumber value units).suggestion = some s := by
  unfold OptionValidator.validateNumber
  split
  · exact Or.inr ⟨_, rfl⟩
  · split
    · split
      · exact Or.inr ⟨_, rfl⟩
      · split
        · exact Or.inl rfl
        · exact Or.inr ⟨_, rfl⟩
    · split
      · exact Or.inr ⟨_, rfl⟩
      · exact Or.inl rfl

/-- Every invalid outcome of option-level boolean validation carries a
suggestion. -/
theorem optionValidateBoolean_shape (value : String) :
    (OptionValidator.validateBoolean value).valid = true
      ∨ ∃ s, (OptionValidator.validateBoolean value).suggestion = some s := by
  simp only [OptionValidator.validateBoolean]
  split
  · exact Or.inl rfl
  · exact Or.inr ⟨_, rfl⟩

/-- Every invalid outcome of option-level enum validation carries a
suggestion. -/
theorem optionValidateEnum_shape (value : String) (enumValues : List String) :
    (OptionValidator.validateEnum value enumValues).valid = true
      ∨ ∃ s, (OptionValidator.validateEnum value enumValues).suggestion = some s := by
  unfold OptionValidator.validateEnum
  split
  · exact Or.inl rfl
  · split
    · exact Or.inl rfl
    · exact Or.inr ⟨_, rfl⟩

/-- Every invalid outcome of the option-level validation entry point
carries a suggestion. -/
theorem optionValidate_shape (value : String) (option : OptionItem) :
    (OptionValidator.validate value option).valid = true
      ∨ ∃ s, (OptionValidator.validate value option).suggestion = some s := by
  simp only [OptionValidator.validate]
  split
  · exact Or.inl rfl
  · split
    · exact Or.inl rfl
    · exact optionValidateNumber_shape _ _
    · exact optionValidateBoolean_shape _
    · exact optionValidateEnum_shape _ _

/-- Every invalid outcome of the rule-level unit check carries a
suggestion. -/
theorem vvNumberUnit_shape (value : String) (config : ValueConfig) :
    (ValueValidator.validateNumber.validateNumberUnit value config).valid = true
      ∨ ∃ s, (ValueValidator.validateNumber.validateNumberUnit value config).suggestion
          = some s := by
  simp only [ValueValidator.validateNumber.validateNumberUnit]
  split
  · split
    · exact Or.inr ⟨_, rfl⟩
    · exact Or.inl rfl
  · split
    · exact Or.inr ⟨_, rfl⟩
    · exact Or.inl rfl

/-- Every invalid outcome of the rule-level max check carries a
suggestion. -/
theorem vvNumberMax_shape (value : String) (config : ValueConfig) (numValue : Rat) :
    (ValueValidator.validateNumber.validateNumberMax value config numValue).valid = true
      ∨ ∃ s, (ValueValidator.validateNumber.validateNumberMax value config numValue).suggestion
          = some s := by
  simp only [ValueValidator.validateNumber.validateNumberMax]
  split
  · split
    · exact Or.inr ⟨_, rfl⟩
    · exact vvNumberUnit_shape _ _
  · exact vvNumberUnit_shape _ _

/-- Every invalid outcome of rule-level number validation carries a
suggestion. -/
theorem vvNumber_shape (value : String) (config : ValueConfig) :
    (ValueValidator.validateNumber value config).valid = true
      ∨ ∃ s, (ValueValidator.validateNumber value config).suggestion = some s := by
  simp only [ValueValidator.validateNumber]
  split
  · exact Or.inr ⟨_, rfl⟩
  · split
    · exact Or.inr ⟨_, rfl⟩
    · split
      · split
        · exact Or.inr ⟨_, rfl⟩
        · exact vvNumberMax_shape _ _ _
      · exact vvNumberMax_shape _ _ _

/-- Every invalid outcome of the rule-level pattern check carries a
suggestion. -/
theorem vvTextPattern_shape (rx : String → String → Option Bool) (value : String)
    (config : ValueConfig) :
    (ValueValidator.validateText.validateTextPattern rx value config).valid = true
      ∨ ∃ s, (ValueValidator.validateText.validateTextPattern rx value config).suggestion
          = some s := by
  simp only [ValueValidator.validateText.validateTextPattern]
  split
  · split
    · exact Or.inr ⟨_, rfl⟩
    · exact Or.inl rfl
  · exact Or.inl rfl

/-- Every invalid outcome of the rule-level max-length check carries a
suggestion. -/
theorem vvTextMax_shape (rx : String → String → Option Bool) (value : String)
    (config : ValueConfig) :
    (ValueValidator.validateText.validateTextMax rx value config).valid = true
      ∨ ∃ s, (ValueValidator.validateText.validateTextMax rx value config).suggestion
          = some s := by
  simp only [ValueValidator.validateText.validateTextMax]
  split
  · split
    · exact Or.inr ⟨_, rfl⟩
    · exact vvTextPattern_shape _ _ _
  · exact vvTextPattern_shape _ _ _

/-- Every invalid outcome of rule-level text validation carries a
suggestion. -/
theorem vvText_shape (rx : String → String → Option Bool) (value : String)
    (config : ValueConfig) :
    (ValueValidator.validateText rx value config).valid = true
      ∨ ∃ s, (ValueValidator.validateText rx value config).suggestion = some s := by
  simp only [ValueValidator.validateText]
  split
  · split
    · exact Or.inr ⟨_, rfl⟩
    · exact vvTextMax_shape _ _ _
  · exact vvTextMax_shape _ _ _

/-- On input whose trim is nonempty, every invalid outcome of the
rule-level validation entry point carries a suggestion: the required
branch, the only branch without one, is reachable only on empty input. -/
theorem vvValidate_shape (rx : String → String → Option Bool) (value : String)
    (config : ValueConfig) (h : Js.trim value ≠ "") :
    (ValueValidator.validate rx value config).valid = true
      ∨ ∃ s, (ValueValidator.validate rx value config).suggestion = some s := by
  simp only [ValueValidator.validate]
  rw [if_neg (by simp [h])]
  split
  · exact vvNumber_shape _ _
  · exact vvText_shape _ _ _
  · exact Or.inl rfl

/-- Provenance of a chosen validation outcome: it comes from the
option-level validator or from the rule-level validator on the same
value. -/
theorem chooseResult_shape (rx : String → String → Option Bool) (r : FieldRule)
    (kp vp : String) (res : ValidationResult)
    (h : ValueValidatorExtension.chooseResult rx r kp vp = some res) :
    (∃ opt, res = OptionValidator.validate vp opt)
      ∨ ∃ cfg, res = ValueValidator.validate rx vp cfg := by
  unfold ValueValidatorExtension.chooseResult at h
  split at h
  · rename_i opt _
    split at h
    · exact Or.inl ⟨opt, (Option.some.inj h).symm⟩
    · match hc : r.valueConfig with
      | none => rw [hc] at h; exact Option.noConfusion h
      | some cfg =>
        rw [hc, Option.map_some'] at h
        exact Or.inr ⟨cfg, (Option.some.inj h).symm⟩
  · match hc : r.valueConfig with
    | none => rw [hc] at h; exact Option.noConfusion h
    | some cfg =>
      rw [hc, Option.map_some'] at h
      exact Or.inr ⟨cfg, (Option.some.inj h).symm⟩

/-- An error produced for a line records that line, is invalid, and never
equals the rule-level required outcome. -/
theorem processLine_some (rules : List FieldRule) (rx : String → String → Option Bool)
    (parsed : Option Yaml) (lines : List String) (line : Nat)
    (e : ValueValidatorExtension.ValidationError)
    (h : ValueValidatorExtension.processLine rules rx parsed lines line = some e) :
    e.line = line ∧ e.result.valid = false
    ∧ ∀ c : ValueConfig, e.result ≠ requiredOutcome c := by
  simp only [ValueValidatorExtension.processLine] at h
  split at h
  · exact Option.noConfusion h
  · split at h
    · exact Option.noConfusion h
    · split at h
      · exact Option.noConfusion h
      · split at h
        · exact Option.noConfusion h
        · split at h
          · exact Option.noConfusion h
          · split at h
            · exact Option.noConfusion h
            · rename_i hvp
              split at h
              · exact Option.noConfusion h
              · rename_i result hchoose
                split at h
                · exact Option.noConfusion h
                · rename_i hvalid
                  obtain rfl : _ = e := Option.some.inj h
                  refine ⟨rfl, by simpa using hvalid, ?_⟩
                  intro c hEq
                  have hshape : result.valid = true ∨ ∃ s, result.suggestion = some s := by
                    rcases chooseResult_shape rx _ _ _ result hchoose with ⟨opt, ho⟩ | ⟨cfg, hc⟩
                    · rw [ho]
                      exact optionValidate_shape _ _
                    · rw [hc]
                      apply vvValidate_shape
                      apply trim_trim_ne
                      intro hz
                      exact (by simpa using hvp : ¬_ = "") hz
                  have hres : result = requiredOutcome c := hEq
                  rcases hshape with hv | ⟨s, hs⟩
                  · rw [hres] at hv
                    simp [requiredOutcome] at hv
                  · rw [hres] at hs
                    simp [requiredOutcome] at hs

/-- A line whose trimmed after-colon text is empty is skipped before any
validator runs. -/
theorem processLine_skip_empty (rules : List FieldRule)
    (rx : String → String → Option Bool) (parsed : Option Yaml) (lines : List String)
    (line : Nat)
    (h : Js.trim (ValueValidatorExtension.afterFirstColon (lines.getD line "")) = "") :
    ValueValidatorExtension.processLine rules rx parsed lines line = none := by
  simp only [ValueValidatorExtension.processLine]
  split
  · rfl
  · split
    · rfl
    · split
      · rfl
      · split
        · rfl
        · split
          · rfl
          · rw [if_pos (by simpa using h)]

/-- C10: the driver skips every line whose text after the first colon is
empty or whitespace-only before invoking any validator, so no error is
ever reported for such a line; and every error the driver does report
differs from the rule-level required outcome for every configuration, so
that outcome is unreachable through the driver. -/
theorem driver_skips_empty_values (rules : List FieldRule)
    (rx : String → String → Option Bool) (parsed : Option Yaml) (lines : List String) :
    (∀ L : Nat, Js.trim (ValueValidatorExtension.afterFirstColon (lines.getD L "")) = "" →
      ∀ e ∈ ValueValidatorExtension.validateAllFrontmatter rules rx parsed lines,
        e.line ≠ L)
    ∧ ∀ e ∈ ValueValidatorExtension.validateAllFrontmatter rules rx parsed lines,
        ∀ c : ValueConfig, e.result ≠ requiredOutcome c := by
  constructor
  · intro L hL e he hEq
    obtain ⟨Lp, _, hp⟩ := List.mem_filterMap.mp he
    obtain ⟨hline, _, _⟩ := processLine_some rules rx parsed lines Lp e hp
    rw [hEq] at hline
    rw [hline] at hL
    rw [processLine_skip_empty rules rx parsed lines Lp hL] at hp
    exact Option.noConfusion hp
  · intro e he c
    obtain ⟨Lp, _, hp⟩ := List.mem_filterMap.mp he
    exact (processLine_some rules rx parsed lines Lp e hp).2.2 c

/-- Witness for C10 at a concrete document and rule: the empty-valued
parent line a: reports nothing, while the invalid boolean on the child
line is reported with an error that is not the required outcome. -/
theorem driver_skips_empty_values_witness :
    ((ValueValidatorExtension.validateAllFrontmatter
        [{ fieldPath := "a", options := [{ key := "x", type := some OptType.boolean }] }]
        rxNone none ["---", "a:", "  x: maybe", "---"]).getD 0
      ⟨0, 0, 0, ⟨true, none, none⟩⟩).line ≠ 1
    ∧ ((ValueValidatorExtension.validateAllFrontmatter
        [{ fieldPath := "a", options := [{ key := "x", type := some OptType.boolean }] }]
        rxNone none ["---", "a:", "  x: maybe", "---"]).getD 0
      ⟨0, 0, 0, ⟨true, none, none⟩⟩).result ≠ requiredOutcome {} := by
  constructor
  · exact (driver_skips_empty_values
      [{ fieldPath := "a", options := [{ key := "x", type := some OptType.boolean }] }]
      rxNone none ["---", "a:", "  x: maybe", "---"]).1 1 (by decide) _ (by decide)
  · exact (driver_skips_empty_values
      [{ fieldPath := "a", options := [{ key := "x", type := some OptType.boolean }] }]
      rxNone none ["---", "a:", "  x: maybe", "---"]).2 _ (by decide) {}
